import Mathlib

/-
Verification development for the AlphaMachine backtest engine
(AlphaMachine_core/engine.py, class SharpeBacktestEngine).

Modelling conventions used throughout:
* Dates are modelled as business-day ordinals (Int): the price table index
  is a strictly increasing list of such ordinals, and the business-day
  range between two dates d1 <= d2 contains exactly d2 - d1 + 1 ordinals.
* Prices are exact rationals; a missing price (NaN cell) is none.
* The external collaborators of the engine (rebalance scheduler,
  trailing-Sharpe pre-selector, portfolio optimizer, position allocator)
  are not part of the engine source; they are abstract function
  parameters, matching the external-interface table of the spec.
* The float transcendentals sqrt and pow are abstracted as rational
  valued function parameters; IEEE float division by zero and NaN
  propagation, which the Python code relies on, are modelled by RFloat.
-/

namespace AlphaMachine

/-- Model of a numpy float value: a finite rational, a signed infinity, or
NaN.  numpy float arithmetic never raises on division by zero; it produces
an infinity or NaN, which this type makes explicit. -/
inductive RFloat where
| fin (q : ℚ)
| inf
| ninf
| nan
deriving DecidableEq, Repr

/-- numpy-style division.  Finite / nonzero finite is exact division;
finite / zero is a signed infinity (or NaN for 0/0); NaN propagates. -/
def RFloat.div : RFloat → RFloat → RFloat
| RFloat.nan, _ => RFloat.nan
| _, RFloat.nan => RFloat.nan
| RFloat.fin a, RFloat.fin b =>
    if b ≠ 0 then RFloat.fin (a / b)
    else if 0 < a then RFloat.inf
    else if a < 0 then RFloat.ninf
    else RFloat.nan
| RFloat.fin _, RFloat.inf => RFloat.fin 0
| RFloat.fin _, RFloat.ninf => RFloat.fin 0
| RFloat.inf, RFloat.fin b => if b < 0 then RFloat.ninf else RFloat.inf
| RFloat.ninf, RFloat.fin b => if b < 0 then RFloat.inf else RFloat.ninf
| RFloat.inf, RFloat.inf => RFloat.nan
| RFloat.inf, RFloat.ninf => RFloat.nan
| RFloat.ninf, RFloat.inf => RFloat.nan
| RFloat.ninf, RFloat.ninf => RFloat.nan

/-- numpy-style multiplication; NaN propagates, infinity times zero is NaN. -/
def RFloat.mul : RFloat → RFloat → RFloat
| RFloat.nan, _ => RFloat.nan
| _, RFloat.nan => RFloat.nan
| RFloat.fin a, RFloat.fin b => RFloat.fin (a * b)
| RFloat.inf, RFloat.fin b =>
    if 0 < b then RFloat.inf else if b < 0 then RFloat.ninf else RFloat.nan
| RFloat.fin a, RFloat.inf =>
    if 0 < a then RFloat.inf else if a < 0 then RFloat.ninf else RFloat.nan
| RFloat.ninf, RFloat.fin b =>
    if 0 < b then RFloat.ninf else if b < 0 then RFloat.inf else RFloat.nan
| RFloat.fin a, RFloat.ninf =>
    if 0 < a then RFloat.ninf else if a < 0 then RFloat.inf else RFloat.nan
| RFloat.inf, RFloat.inf => RFloat.inf
| RFloat.inf, RFloat.ninf => RFloat.ninf
| RFloat.ninf, RFloat.inf => RFloat.ninf
| RFloat.ninf, RFloat.ninf => RFloat.inf

/-- Subtract a finite rational from an RFloat (used for the risk-free
adjustment in the Sortino numerator). -/
def RFloat.subQ : RFloat → ℚ → RFloat
| RFloat.fin a, c => RFloat.fin (a - c)
| x, _ => x

/-- pandas Series.pct_change on a fully observed series: entry i is
v_i / v_(i-1) - 1; the leading NaN row is already dropped (the engine
calls .dropna() right after). -/
def pctChange (xs : List ℚ) : List ℚ :=
  (xs.tail.zip xs).map (fun p => p.1 / p.2 - 1)

/-- Arithmetic mean of a rational list (meaningful for nonempty lists;
callers guard emptiness the way pandas mean returns NaN). -/
def meanQ (xs : List ℚ) : ℚ := xs.sum / (xs.length : ℚ)

/-- pandas mean: NaN on an empty selection, otherwise the finite mean. -/
def meanR (xs : List ℚ) : RFloat :=
  if xs.isEmpty then RFloat.nan else RFloat.fin (meanQ xs)

/-- Sample variance with ddof = 1 (the pandas default for .std). -/
def varQ (xs : List ℚ) : ℚ :=
  ((xs.map (fun x => (x - meanQ xs) * (x - meanQ xs))).sum) / ((xs.length : ℚ) - 1)

/-- pandas .std(): NaN for fewer than two observations, otherwise the
square root of the ddof-1 sample variance (sqrt abstracted as sqrtQ). -/
def stdR (sqrtQ : ℚ → ℚ) (xs : List ℚ) : RFloat :=
  if xs.length ≤ 1 then RFloat.nan else RFloat.fin (sqrtQ (varQ xs))

/-- Running maximum (pandas cummax) of a series. -/
def runningMaxAux (m : ℚ) : List ℚ → List ℚ
| [] => []
| x :: rest => (max m x) :: runningMaxAux (max m x) rest

/-- pandas Series.cummax. -/
def runningMax : List ℚ → List ℚ
| [] => []
| x :: rest => x :: runningMaxAux x rest

/-- Minimum of a rational list with a default for the empty list. -/
def listMinD (l : List ℚ) (d : ℚ) : ℚ :=
  match l with
  | [] => d
  | x :: r => r.foldl min x

/-- Daily percentage changes of the equity curve values
(`daily_returns` in `_calculate_performance_metrics`). -/
def dailyReturnsOf (vals : List ℚ) : List ℚ := pctChange vals

/-- Drawdown series: value / running-peak - 1. -/
def drawdownOf (vals : List ℚ) : List ℚ :=
  (vals.zip (runningMax vals)).map (fun p => p.1 / p.2 - 1)

/-- `max_dd = drawdown.min()` from the source. -/
def maxDrawdownOf (vals : List ℚ) : ℚ := listMinD (drawdownOf vals) 0

/-- The strictly negative drawdown entries (`drawdown[drawdown < 0]`). -/
def negDrawdowns (vals : List ℚ) : List ℚ :=
  (drawdownOf vals).filter (fun d => decide (d < 0))

/-- Ulcer Index: RMS of the negative drawdowns on the percent scale.
pandas mean of the empty selection is NaN, and numpy sqrt of NaN is NaN. -/
def ulcerOf (sqrtQ : ℚ → ℚ) (vals : List ℚ) : RFloat :=
  if (negDrawdowns vals).isEmpty then RFloat.nan
  else RFloat.fin (sqrtQ (meanQ ((negDrawdowns vals).map (fun d => (d * 100) * (d * 100)))))

/-- Downside volatility: std of the negative daily returns, annualized
(`down_vol = downside.std() * np.sqrt(252)`). -/
def downVolOf (sqrtQ : ℚ → ℚ) (vals : List ℚ) : RFloat :=
  RFloat.mul (stdR sqrtQ ((dailyReturnsOf vals).filter (fun r => decide (r < 0))))
    (RFloat.fin (sqrtQ 252))

/-- Denominator of the Omega ratio: sum of shortfalls below threshold 0
(`neg = (theta - daily_returns).clip(lower=0).sum()`). -/
def omegaNegOf (vals : List ℚ) : ℚ :=
  ((dailyReturnsOf vals).map (fun r => max (0 - r) 0)).sum

/-- Numerator of the Omega ratio
(`pos = (daily_returns - theta).clip(lower=0).sum()`). -/
def omegaPosOf (vals : List ℚ) : ℚ :=
  ((dailyReturnsOf vals).map (fun r => max (r - 0) 0)).sum

/-- `avg_dd = abs(drawdown[drawdown < 0]).mean()`; NaN when there is no
negative drawdown. -/
def avgNegDrawdownOf (vals : List ℚ) : RFloat :=
  if (negDrawdowns vals).isEmpty then RFloat.nan
  else RFloat.fin (meanQ ((negDrawdowns vals).map (fun d => |d|)))

/-- CAGR as computed by the source:
`(final / start) ** (252 / len(curve)) - 1`, with the float power
abstracted as powQ. -/
def cagrOf (powQ : ℚ → ℚ → ℚ) (startBalance : ℚ) (vals : List ℚ) : ℚ :=
  powQ (vals.getLastD 0 / startBalance) (252 / (vals.length : ℚ)) - 1

/-- The daily risk-free rate used by the Sortino ratio: 2 percent per
annum over 252 days (`rf_daily = 0.02 / 252`). -/
def rfDaily : ℚ := 2 / 100 / 252

/-- The numeric performance metrics computed in
`_calculate_performance_metrics` (presentation-string formatting of the
Python DataFrame is dropped; the numbers themselves are kept). -/
structure Metrics where
  totalReturn : ℚ
  cagr : ℚ
  volatility : RFloat
  sharpe : RFloat
  maxDrawdown : ℚ
  ulcer : RFloat
  upi : RFloat
  sortino : RFloat
  calmar : RFloat
  omega : RFloat
  pain : RFloat
  tradingCostsPct : ℚ
deriving DecidableEq, Repr

/-- Mirror of the metric computations in
`SharpeBacktestEngine._calculate_performance_metrics` (engine.py lines
425-464) on a nonempty equity curve.  Each guarded ratio reproduces the
source's `... if denom != 0 else np.nan` structure exactly; the Sharpe
ratio reproduces the source's unguarded float division. -/
def computeMetrics (sqrtQ : ℚ → ℚ) (powQ : ℚ → ℚ → ℚ)
    (startBalance totalCosts : ℚ) (vals : List ℚ) : Metrics :=
  let dr := dailyReturnsOf vals
  let cagr := cagrOf powQ startBalance vals
  let maxDD := maxDrawdownOf vals
  let ui := ulcerOf sqrtQ vals
  let downVol := downVolOf sqrtQ vals
  let avgDD := avgNegDrawdownOf vals
  { totalReturn := vals.getLastD 0 / startBalance - 1
    cagr := cagr
    volatility := RFloat.mul (stdR sqrtQ dr) (RFloat.fin (sqrtQ 252))
    sharpe := RFloat.mul (RFloat.div (meanR dr) (stdR sqrtQ dr)) (RFloat.fin (sqrtQ 252))
    maxDrawdown := maxDD
    ulcer := ui
    upi := if ui ≠ RFloat.fin 0
      then RFloat.div (RFloat.fin cagr) (RFloat.div ui (RFloat.fin 100))
      else RFloat.nan
    sortino := if downVol ≠ RFloat.fin 0
      then RFloat.mul (RFloat.div (RFloat.subQ (meanR dr) rfDaily) downVol)
        (RFloat.fin (sqrtQ 252))
      else RFloat.nan
    calmar := if maxDD ≠ 0 then RFloat.div (RFloat.fin cagr) (RFloat.fin |maxDD|)
      else RFloat.nan
    omega := if omegaNegOf vals ≠ 0 then RFloat.fin (omegaPosOf vals / omegaNegOf vals)
      else RFloat.nan
    pain := if avgDD ≠ RFloat.fin 0 then RFloat.div (RFloat.fin cagr) avgDD
      else RFloat.nan
    tradingCostsPct := totalCosts / startBalance * 100 }

/-- Output bundle of the performance-metrics calculator: the metric rows
and the monthly performance table (month-end date, absolute PnL,
percent PnL). -/
structure PerfOutput where
  performanceMetrics : List (String × RFloat)
  monthlyPerformance : List (Int × ℚ × ℚ)
deriving DecidableEq, Repr

/-- Last curve entry of each calendar month, in order
(pandas `resample("ME").last()`; monthOf maps a date ordinal to its
calendar month). -/
def monthlyLast (monthOf : Int → Int) : List (Int × ℚ) → List (Int × ℚ)
| [] => []
| [x] => [x]
| x :: y :: rest =>
  if monthOf x.1 = monthOf y.1 then monthlyLast monthOf (y :: rest)
  else x :: monthlyLast monthOf (y :: rest)

/-- Consecutive differences (pandas .diff().dropna()). -/
def diffs (xs : List ℚ) : List ℚ := (xs.tail.zip xs).map (fun p => p.1 - p.2)

/-- `SharpeBacktestEngine._calculate_performance_metrics` as a pure
function of the finalized equity curve: on an empty curve both output
tables are empty and nothing else is computed (engine.py lines 417-420);
otherwise all metric rows and the monthly table are produced. -/
def calculatePerformanceMetrics (sqrtQ : ℚ → ℚ) (powQ : ℚ → ℚ → ℚ)
    (monthOf : Int → Int) (startBalance totalCosts : ℚ)
    (curve : List (Int × ℚ)) : PerfOutput :=
  if curve.isEmpty then { performanceMetrics := [], monthlyPerformance := [] }
  else
    let vals := curve.map Prod.snd
    let m := computeMetrics sqrtQ powQ startBalance totalCosts vals
    let monthEnds := monthlyLast monthOf curve
    let pnlPct := pctChange (monthEnds.map Prod.snd)
    let pnlAbs := diffs (monthEnds.map Prod.snd)
    { performanceMetrics :=
        [("Start Balance", RFloat.fin startBalance),
         ("End Balance", RFloat.fin (vals.getLastD 0)),
         ("Total Return", RFloat.fin m.totalReturn),
         ("CAGR", RFloat.fin m.cagr),
         ("Annual Volatility", m.volatility),
         ("Sharpe Ratio", m.sharpe),
         ("Max Drawdown", RFloat.fin m.maxDrawdown),
         ("Total Trading Costs", RFloat.fin totalCosts),
         ("Trading Costs Pct of Initial", RFloat.fin m.tradingCostsPct),
         ("Ulcer Index", m.ulcer),
         ("Ulcer Performance Index", m.upi),
         ("Sortino Ratio", m.sortino),
         ("Calmar Ratio", m.calmar),
         ("Omega Ratio", m.omega),
         ("Pain Ratio", m.pain)],
      monthlyPerformance :=
        ((monthEnds.tail.map Prod.fst).zip (pnlAbs.zip pnlPct)).map
          (fun p => (p.1, p.2.1, p.2.2 * 100)) }

/-- The engine's working price table: a strictly increasing list of
business-day ordinals and one named column per instrument, each column a
list of optional prices aligned with the date list (none = missing). -/
structure PriceTable where
  dates : List Int
  cols : List (String × List (Option ℚ))
deriving DecidableEq, Repr

/-- `price_data.at[day, ticker]` with the source's
`if ticker in self.price_data.columns else np.nan` guard: none when the
ticker is absent, the (possibly missing) cell otherwise. -/
def priceAt (pt : PriceTable) (d : Int) (t : String) : Option ℚ :=
  match pt.cols.filter (fun c => decide (c.1 = t)) with
  | [] => none
  | c :: _ =>
    match (pt.dates.zip c.2).filter (fun p => decide (p.1 = d)) with
    | [] => none
    | p :: _ => p.2

/-- Length of `pd.date_range(index.min(), index.max(), freq="B")`: with
dates as business-day ordinals this is max - min + 1 (0 for an empty
table). -/
def fullRangeLen (pt : PriceTable) : Nat :=
  match pt.dates with
  | [] => 0
  | d :: ds => ((ds.foldl max d) - (ds.foldl min d) + 1).toNat

/-- Count of non-missing observations of one column
(`len(price_data[col].dropna())`). -/
def colCoverage (col : List (Option ℚ)) : Nat :=
  (col.filter Option.isSome).length

/-- `min_coverage_days = int(len(full_range) * threshold)` — note the
Python int() truncation, which for the nonnegative products that occur
here is the floor. -/
def minCoverageDays (pt : PriceTable) (threshold : ℚ) : Nat :=
  (Int.floor ((fullRangeLen pt : ℚ) * threshold)).toNat

/-- The retained column names of `_get_valid_tickers`: a column is valid
iff its observation count reaches `min_coverage_days`. -/
def validTickers (pt : PriceTable) (threshold : ℚ) : List String :=
  (pt.cols.filter (fun c => decide (minCoverageDays pt threshold ≤ colCoverage c.2))).map
    Prod.fst

/-- The side effect of `_filter_complete_tickers`:
`self.price_data = self.price_data[valid]`. -/
def applyCoverageFilter (pt : PriceTable) (threshold : ℚ) : PriceTable :=
  { dates := pt.dates,
    cols := pt.cols.filter (fun c => decide (minCoverageDays pt threshold ≤ colCoverage c.2)) }

/-- ASCII lowercase of a string, mirroring the Python `str.lower()` call
on the universe-mode strings. -/
def lowerString (s : String) : String := String.mk (s.data.map Char.toLower)

/-- The constructor branch of `SharpeBacktestEngine.__init__`: the
coverage filter (threshold 0.95) runs only when
`universe_mode.lower() == "dynamic"`; any other mode keeps the caller's
columns verbatim. -/
def initPriceTable (universeMode : String) (pt : PriceTable) : PriceTable :=
  if lowerString universeMode = "dynamic" then applyCoverageFilter pt (19 / 20) else pt

/-- Formalisation of the SPEC WORDING of the coverage-filter retention
rule (for claim C7 only; `validTickers` above follows the source): a
column is retained iff its ratio of non-missing observations to the full
business-day range length is at least the threshold. -/
def retainedPerSpec (pt : PriceTable) (threshold : ℚ)
    (col : String × List (Option ℚ)) : Prop :=
  threshold ≤ (colCoverage col.2 : ℚ) / (fullRangeLen pt : ℚ)

instance (pt : PriceTable) (threshold : ℚ) (col : String × List (Option ℚ)) :
    Decidable (retainedPerSpec pt threshold col) := by
  unfold retainedPerSpec; infer_instance

/-- Forward fill of one column (the pad step of the legacy pandas
`pct_change(fill_method="pad")` default). -/
def ffillAux : Option ℚ → List (Option ℚ) → List (Option ℚ)
| _, [] => []
| last, x :: rest =>
  match x with
  | some q => some q :: ffillAux (some q) rest
  | none => last :: ffillAux last rest

/-- One column of `price_data.pct_change()`: pad-fill, then percentage
change between consecutive padded values; a cell is missing when either
padded operand is missing (in particular the whole first row). -/
def pctCells : List (Option ℚ) → List (Option ℚ)
| [] => []
| x :: rest =>
  let p := ffillAux none (x :: rest)
  none :: ((p.tail.zip p).map (fun q =>
    match q.1, q.2 with
    | some a, some b => some (a / b - 1)
    | _, _ => none))

/-- Does row i of the column-major return matrix hold at least one
observation (the `dropna(how="all")` row criterion)? -/
def rowHasObs (cols : List (String × List (Option ℚ))) (i : Nat) : Bool :=
  cols.any (fun c => (c.2.getD i none).isSome)

/-- Keep the entries of l whose mask bit is true. -/
def maskKeep (mask : List Bool) (l : List α) : List α :=
  ((mask.zip l).filter (fun p => p.1)).map (fun p => p.2)

/-- `returns = price_data.pct_change().dropna(how="all").fillna(0)`
(engine.py lines 167-171): per-column percentage changes, rows with no
observation at all dropped, then every remaining missing cell replaced
by the explicit zero return. -/
def returnsTable (pt : PriceTable) : PriceTable :=
  let pcols := pt.cols.map (fun c => (c.1, pctCells c.2))
  let mask := (List.range pt.dates.length).map (fun i => rowHasObs pcols i)
  { dates := maskKeep mask pt.dates,
    cols := pcols.map (fun c => (c.1, (maskKeep mask c.2).map (fun x => some (x.getD 0)))) }

/-- `sub_returns = returns.loc[window_start:date].dropna(axis=1, how="all")`
followed by `available = sub_returns.shape[1]`.  After `fillna(0)` the
return matrix holds no missing cell, so a column is dropped iff the
window slice has no rows at all (pandas drops every column of a 0-row
frame under how="all"); hence available is 0 exactly when the window is
empty and the full column count otherwise. -/
def availableCols (ret : PriceTable) (wStart d : Int) : Nat :=
  if (ret.dates.filter (fun t => decide (wStart ≤ t ∧ t ≤ d))).isEmpty then 0
  else ret.cols.length

/-- A held position: `{"shares": ..., "weight": ..., "trading_costs": ...}`. -/
structure Position where
  shares : ℚ
  weight : ℚ
  tradingCosts : ℚ
deriving DecidableEq, Repr

/-- One row of the engine's `daily_data` append-only log. -/
structure DailyRecord where
  date : Int
  ticker : String
  closePrice : ℚ
  shares : ℚ
  allocatedAmount : ℚ
  allocatedPct : ℚ
  totalPortfolioValue : ℚ
  isRebalanceDay : Bool
  tradingCosts : ℚ
deriving DecidableEq, Repr

/-- An allocation record returned by the external Position Allocator; the
engine only reads its optional `Trading Costs` figure. -/
structure AllocRecord where
  tradingCosts : ℚ
deriving DecidableEq, Repr

/-- A rebalance event produced by the external scheduler. -/
structure REvent where
  rebalanceDate : Int
  startDate : Int
  endDate : Int
deriving DecidableEq, Repr

/-- The engine's run configuration (the constructor parameters that the
claims exercise). -/
structure Config where
  startBalance : ℚ
  numStocks : Nat
  windowDays : Int
  topUniverseSize : Nat
  optimizationMode : String
  universeMode : String
deriving DecidableEq, Repr

/-- The external collaborators, abstracted as deterministic functions of
the data that the engine hands them: the pre-selector and optimizer see
the lookback window (start, rebalance date) plus their explicit
arguments; the allocator sees date, tickers, weights, capital and the
previous positions. -/
structure Collaborators where
  preselect : Int → Int → Nat → List String
  optimize : Int → Int → List String → Nat → List (String × ℚ)
  allocate : Int → List String → List ℚ → ℚ → List (String × Position) →
    List (String × Position) × List AllocRecord

/-- The engine's mutable per-run state.  `allocCalls` records the
(date, capital) argument pair of every Position Allocator invocation —
an observation trace of the arguments the source passes at engine.py
line 280, used to state capital continuity. -/
structure EngineState where
  balance : ℚ
  positions : List (String × Position)
  dailyData : List DailyRecord
  portfolioValues : List (Int × ℚ)
  allocCalls : List (Int × ℚ)
  totalTradingCosts : ℚ
  logLines : List String
  selectionDetails : List (Int × Nat × List String)
deriving DecidableEq, Repr

/-- Fresh state at the start of `run_with_next_month_allocation`. -/
def initialState (cfg : Config) : EngineState :=
  { balance := cfg.startBalance, positions := [], dailyData := [],
    portfolioValues := [], allocCalls := [], totalTradingCosts := 0,
    logLines := [], selectionDetails := [] }

/-- Descending-weight comparison on named weights (the sort key of
`sort_values(ascending=False)`). -/
def weightGE (a b : String × ℚ) : Prop := b.2 ≤ a.2

instance : DecidableRel weightGE :=
  fun a b => inferInstanceAs (Decidable (b.2 ≤ a.2))

instance : IsTotal (String × ℚ) weightGE := ⟨fun a b => le_total b.2 a.2⟩

instance : IsTrans (String × ℚ) weightGE :=
  ⟨fun _ _ _ h1 h2 => le_trans h2 h1⟩

/-- `weights_full.sort_values(ascending=False)` on a named weight vector:
sort the pairs by descending weight. -/
def sortByWeightDesc (l : List (String × ℚ)) : List (String × ℚ) :=
  l.insertionSort weightGE

/-- The optimization-mode branch of the rebalance loop (engine.py lines
238-265).  `select-then-optimize` takes the first n pre-selected tickers
and optimizes exactly those; EVERY other mode value falls into the else
branch: optimize the whole pre-selected universe, sort the resulting
weights descending, keep the first n pairs as they are. -/
def selectAndWeight (mode : String) (optimizeFn : List String → List (String × ℚ))
    (topUniverse : List String) (n : Nat) : List String × List (String × ℚ) :=
  if mode = "select-then-optimize" then
    let topTickers := topUniverse.take n
    (topTickers, optimizeFn topTickers)
  else
    let weightsFull := optimizeFn topUniverse
    let top := (sortByWeightDesc weightsFull).take n
    (top.map Prod.fst, top)

/-- `window_start = date - pd.Timedelta(days=self.window_days)`. -/
def eventWindowStart (cfg : Config) (ev : REvent) : Int :=
  ev.rebalanceDate - cfg.windowDays

/-- The per-event `available` column count. -/
def eventAvailable (cfg : Config) (ret : PriceTable) (ev : REvent) : Nat :=
  availableCols ret (eventWindowStart cfg ev) ev.rebalanceDate

/-- `n_stocks = min(self.num_stocks, available)`. -/
def eventN (cfg : Config) (ret : PriceTable) (ev : REvent) : Nat :=
  min cfg.numStocks (eventAvailable cfg ret ev)

/-- Ticker selection and weights of one rebalance event: pre-select the
top universe by trailing Sharpe, then branch on the optimization mode. -/
def eventTickersWeights (cfg : Config) (C : Collaborators) (ev : REvent)
    (n : Nat) : List String × List (String × ℚ) :=
  selectAndWeight cfg.optimizationMode
    (fun cols => C.optimize (eventWindowStart cfg ev) ev.rebalanceDate cols n)
    (C.preselect (eventWindowStart cfg ev) ev.rebalanceDate cfg.topUniverseSize) n

/-- The allocator invocation of one rebalance event (engine.py line 280):
new positions and allocation records from tickers, weights, the current
balance and the previous positions. -/
def eventAlloc (cfg : Config) (C : Collaborators) (ret : PriceTable)
    (ev : REvent) (balance : ℚ) (prev : List (String × Position)) :
    List (String × Position) × List AllocRecord :=
  let tw := eventTickersWeights cfg C ev (eventN cfg ret ev)
  C.allocate ev.rebalanceDate tw.1 (tw.2.map Prod.snd) balance prev

/-- The trading days of the event's holding period:
`self.price_data.loc[start_date:end_date].index`. -/
def periodDays (pt : PriceTable) (ev : REvent) : List Int :=
  pt.dates.filter (fun d => decide (ev.startDate ≤ d ∧ d ≤ ev.endDate))

/-- One step of the inner mark-to-market loop (engine.py lines 306-322):
a held instrument with a present price contributes shares times price to
the running day total and appends a DailyValuationRecord carrying that
running total; a missing price contributes nothing and appends nothing. -/
def valueStep (pt : PriceTable) (day : Int) (isReb : Bool)
    (acc : ℚ × List DailyRecord) (tp : String × Position) :
    ℚ × List DailyRecord :=
  match priceAt pt day tp.1 with
  | none => acc
  | some p =>
    let v := tp.2.shares * p
    (acc.1 + v,
      acc.2 ++ [{ date := day, ticker := tp.1, closePrice := p,
                  shares := tp.2.shares, allocatedAmount := v,
                  allocatedPct := tp.2.weight * 100,
                  totalPortfolioValue := acc.1 + v,
                  isRebalanceDay := isReb,
                  tradingCosts := if isReb then tp.2.tradingCosts else 0 }])

/-- Daily valuation of the current positions map on one day: the day
total starts at 0 and is accumulated across the held instruments in
order. -/
def valueDay (pt : PriceTable) (day : Int) (isReb : Bool)
    (ps : List (String × Position)) : ℚ × List DailyRecord :=
  ps.foldl (valueStep pt day isReb) (0, [])

/-- The daily loop over the holding period (engine.py lines 305-324):
each day's total is stored in `portfolio_values` and becomes the new
running `balance`. -/
def mtmDays (pt : PriceTable) (startDate : Int) (ps : List (String × Position)) :
    List Int → ℚ × List (Int × ℚ) × List DailyRecord →
    ℚ × List (Int × ℚ) × List DailyRecord
| [], st => st
| d :: rest, st =>
  let v := valueDay pt d (decide (d = startDate)) ps
  mtmDays pt startDate ps rest (v.1, st.2.1 ++ [(d, v.1)], st.2.2 ++ v.2)

/-- One iteration of the rebalance loop of
`run_with_next_month_allocation` (engine.py lines 203-324).  When no
column is available in the lookback window the event is skipped and the
state is returned untouched (the source only prints); otherwise the
tickers and weights are computed, the allocator is invoked with the
running balance and previous positions, trading costs are summed, and
the holding period is marked to market. -/
def processEvent (cfg : Config) (C : Collaborators) (pt ret : PriceTable)
    (ev : REvent) (st : EngineState) : EngineState :=
  if eventAvailable cfg ret ev = 0 then st
  else
    let ar := eventAlloc cfg C ret ev st.balance st.positions
    let r := mtmDays pt ev.startDate ar.1 (periodDays pt ev)
      (st.balance, st.portfolioValues, st.dailyData)
    { balance := r.1
      positions := ar.1
      dailyData := r.2.2
      portfolioValues := r.2.1
      allocCalls := st.allocCalls ++ [(ev.rebalanceDate, st.balance)]
      totalTradingCosts := st.totalTradingCosts + (ar.2.map AllocRecord.tradingCosts).sum
      logLines := (if eventAvailable cfg ret ev < cfg.numStocks
        then st.logLines ++ ["low availability"] else st.logLines) ++ ["rebalanced"]
      selectionDetails := st.selectionDetails ++
        [(ev.rebalanceDate,
          (C.preselect (eventWindowStart cfg ev) ev.rebalanceDate cfg.topUniverseSize).length,
          (eventTickersWeights cfg C ev (eventN cfg ret ev)).1)] }

/-- The rebalance loop: process the scheduled events in order. -/
def runEvents (cfg : Config) (C : Collaborators) (pt ret : PriceTable) :
    List REvent → EngineState → EngineState
| [], st => st
| ev :: rest, st => runEvents cfg C pt ret rest (processEvent cfg C pt ret ev st)

/-- Maximum of a date list (`price_data.index.max()`). -/
def listMaxInt (l : List Int) : Int :=
  match l with
  | [] => 0
  | x :: r => r.foldl max x

/-- The candidate next-month (tickers, weights) pair before the static
restriction (engine.py lines 368-393): same optimization-mode branch as
the main loop, except that in the else branch the optimizer sees the
whole window column set, not just the pre-selected universe. -/
def nextMonthCandidate (cfg : Config) (C : Collaborators) (pt ret : PriceTable) :
    List String × List (String × ℚ) :=
  let lastDate := listMaxInt pt.dates
  let wStart := lastDate - cfg.windowDays
  let n := min cfg.numStocks (availableCols ret wStart lastDate)
  if cfg.optimizationMode = "select-then-optimize" then
    let topSharpe := (C.preselect wStart lastDate cfg.topUniverseSize).take n
    (topSharpe, C.optimize wStart lastDate topSharpe n)
  else
    let wf := C.optimize wStart lastDate (ret.cols.map Prod.fst) n
    let top := (sortByWeightDesc wf).take n
    (top.map Prod.fst, top)

/-- The static-universe restriction of the preview (engine.py lines
396-398): keep only tickers present among the price-table columns, then
reindex the weights to the surviving tickers with fillna(0). -/
def staticRestrict (pt : PriceTable) (ts : List String)
    (ws : List (String × ℚ)) : List String × List (String × ℚ) :=
  let ts2 := ts.filter (fun t => decide (t ∈ pt.cols.map Prod.fst))
  (ts2, ts2.map (fun t =>
    (t, ((ws.filter (fun p => decide (p.1 = t))).map Prod.snd).headD 0)))

/-- The next-month allocation preview (engine.py lines 360-401): empty
pair when the final window has no available column; otherwise the
candidate pair, restricted to the price-table columns when the engine
runs in static universe mode. -/
def nextMonthPreview (cfg : Config) (C : Collaborators) (pt ret : PriceTable) :
    List String × List (String × ℚ) :=
  let lastDate := listMaxInt pt.dates
  let wStart := lastDate - cfg.windowDays
  if availableCols ret wStart lastDate = 0 then ([], [])
  else
    let c := nextMonthCandidate cfg C pt ret
    if cfg.universeMode = "static" then staticRestrict pt c.1 c.2 else c

/-- Result bundle of one full engine run. -/
structure RunResult where
  finalState : EngineState
  nextTickers : List String
  nextWeights : List (String × ℚ)
deriving DecidableEq, Repr

/-- One full run of `run_with_next_month_allocation`: construct the
working price table (coverage filter in dynamic mode only), derive the
return matrix, drive the rebalance loop from a fresh state, then compute
the next-month preview. -/
def runBacktest (cfg : Config) (C : Collaborators) (pt : PriceTable)
    (schedule : List REvent) : RunResult :=
  let pt2 := initPriceTable cfg.universeMode pt
  let ret := returnsTable pt2
  let fs := runEvents cfg C pt2 ret schedule (initialState cfg)
  let nm := nextMonthPreview cfg C pt2 ret
  { finalState := fs, nextTickers := nm.1, nextWeights := nm.2 }

/-- The priced contributions of one day: shares times price of each held
instrument whose price is present, in positions order. -/
def pricedContribs (pt : PriceTable) (day : Int)
    (ps : List (String × Position)) : List ℚ :=
  ps.filterMap (fun tp => (priceAt pt day tp.1).map (fun p => tp.2.shares * p))

/-- Running partial sums starting from acc. -/
def prefixSumsAux (acc : ℚ) : List ℚ → List ℚ
| [] => []
| x :: r => (acc + x) :: prefixSumsAux (acc + x) r

/-- Running partial sums of a list (first entry = first element). -/
def prefixSums (l : List ℚ) : List ℚ := prefixSumsAux 0 l

/-- Example table: one instrument, four consecutive trading days, all
prices present. -/
def ptW : PriceTable :=
  { dates := [0, 1, 2, 3], cols := [("A", [some 1, some 1, some 1, some 1])] }

/-- Example table for the stale-price analysis: the held instrument has
no price on day 1 but trades again on days 2 and 3. -/
def ptR : PriceTable :=
  { dates := [0, 1, 2, 3], cols := [("A", [some 1, none, some 2, some 2])] }

/-- Example table whose instrument is unpriced on day 2 (the last day of
the first holding period below). -/
def ptM : PriceTable :=
  { dates := [0, 1, 2, 3], cols := [("A", [some 1, some 1, none, some 1])] }

/-- Example configuration: one stock, 5-day lookback, static universe,
select-then-optimize. -/
def cfgW : Config :=
  { startBalance := 100, numStocks := 1, windowDays := 5,
    topUniverseSize := 10, optimizationMode := "select-then-optimize",
    universeMode := "static" }

/-- The same configuration under an unrecognized optimization mode. -/
def cfgBadW : Config := { cfgW with optimizationMode := "no-such-mode" }

/-- The same configuration under the optimize-subset mode. -/
def cfgSubW : Config := { cfgW with optimizationMode := "optimize-subset" }

/-- Concrete collaborators honouring the spec's interface table: the
pre-selector returns the single instrument, the optimizer weights every
input column with 1, the allocator buys capital-many shares of each
selected ticker at weight 1 with no trading costs. -/
def collabW : Collaborators :=
  { preselect := fun _ _ _ => ["A"],
    optimize := fun _ _ cols _ => cols.map (fun t => (t, 1)),
    allocate := fun _ ts _ cap _ =>
      (ts.map (fun t => (t, { shares := cap, weight := 1, tradingCosts := 0 })), []) }

/-- First rebalance event of the examples: rebalance on day 1, holding
period days 1-2. -/
def ev1W : REvent := { rebalanceDate := 1, startDate := 1, endDate := 2 }

/-- Second rebalance event of the examples: rebalance on day 3, holding
period day 3. -/
def ev2W : REvent := { rebalanceDate := 3, startDate := 3, endDate := 3 }

/-- An event whose lookback window precedes all data, so that no column
is available. -/
def evSkipW : REvent := { rebalanceDate := -10, startDate := -10, endDate := -9 }

/-- Coverage-filter example: ten consecutive business days, one column
with nine observations out of ten. -/
def ptTrunc : PriceTable :=
  { dates := [0, 1, 2, 3, 4, 5, 6, 7, 8, 9],
    cols := [("A", [some 1, some 1, some 1, some 1, some 1, some 1, some 1,
      some 1, some 1, none])] }

/-- Coverage-filter example: a fully observed column whose date index
spans eleven business days but contains only two of them. -/
def ptSparse : PriceTable :=
  { dates := [0, 10], cols := [("B", [some 1, some 2])] }

/-- Coverage-filter example: a fully observed column over a complete
three-business-day range. -/
def ptFull : PriceTable :=
  { dates := [0, 1, 2], cols := [("A", [some 1, some 2, some 3])] }

/-- Valuation example: two held instruments, both priced on day 0, the
second holding zero shares. -/
def ptP : PriceTable :=
  { dates := [0], cols := [("A", [some 1]), ("B", [some 2])] }

/-- Positions for the valuation example: one share of A, zero shares of B. -/
def psP : List (String × Position) :=
  [("A", { shares := 1, weight := 1, tradingCosts := 0 }),
   ("B", { shares := 0, weight := 1, tradingCosts := 0 })]

/-- Positions for the valuation witness: strictly positive share counts
for both priced instruments. -/
def psPos : List (String × Position) :=
  [("A", { shares := 1, weight := 1, tradingCosts := 0 }),
   ("B", { shares := 2, weight := 1, tradingCosts := 0 })]

/-- A concrete stand-in for float sqrt used to instantiate theorems: it
agrees with sqrt on the two facts the statements rely on (sqrt 0 = 0 and
sqrt of a positive number is positive). -/
def sqrtStub : ℚ → ℚ := fun q => if q ≤ 0 then 0 else 1

/-- A concrete stand-in for the float power function (the CAGR value is
irrelevant to every zero-denominator statement). -/
def powStub : ℚ → ℚ → ℚ := fun _ _ => 1

/-- An equity curve with two equal, strictly positive daily returns:
its daily-return standard deviation is exactly zero while the mean is
positive. -/
def curveFlatUp : List ℚ := [100, 101, 10201 / 100]

theorem getLast?_map_own (f : α → β) :
    ∀ l : List α, (l.map f).getLast? = l.getLast?.map f
| [] => rfl
| [a] => rfl
| a :: b :: t => by
  rw [List.map_cons, List.map_cons, List.getLast?_cons_cons,
    List.getLast?_cons_cons, ← List.map_cons, getLast?_map_own f (b :: t)]

theorem mtmDays_fst (pt : PriceTable) (sd : Int) (ps : List (String × Position)) :
    ∀ (days : List Int) (b : ℚ) (pv : List (Int × ℚ)) (dd : List DailyRecord),
    (mtmDays pt sd ps days (b, pv, dd)).1 =
      (days.map (fun d => (valueDay pt d (decide (d = sd)) ps).1)).getLastD b := by
  intro days
  induction days with
  | nil => intro b pv dd; rfl
  | cons d rest ih =>
    intro b pv dd
    rw [List.map_cons, List.getLastD_cons]
    exact ih _ _ _

theorem mtmDays_pv (pt : PriceTable) (sd : Int) (ps : List (String × Position)) :
    ∀ (days : List Int) (b : ℚ) (pv : List (Int × ℚ)) (dd : List DailyRecord),
    (mtmDays pt sd ps days (b, pv, dd)).2.1 =
      pv ++ days.map (fun d => (d, (valueDay pt d (decide (d = sd)) ps).1)) := by
  intro days
  induction days with
  | nil => intro b pv dd; simp [mtmDays]
  | cons d rest ih =>
    intro b pv dd
    rw [List.map_cons]
    show (mtmDays pt sd ps rest _).2.1 = _
    rw [ih]
    simp

theorem processEvent_skip (cfg : Config) (C : Collaborators) (pt ret : PriceTable)
    (ev : REvent) (st : EngineState) (h : eventAvailable cfg ret ev = 0) :
    processEvent cfg C pt ret ev st = st := by
  unfold processEvent
  rw [if_pos h]

theorem runEvents_skip_all (cfg : Config) (C : Collaborators) (pt ret : PriceTable) :
    ∀ (mid : List REvent) (st : EngineState),
    (∀ ev ∈ mid, eventAvailable cfg ret ev = 0) →
    runEvents cfg C pt ret mid st = st := by
  intro mid
  induction mid with
  | nil => intro st _; rfl
  | cons ev rest ih =>
    intro st h
    show runEvents cfg C pt ret rest (processEvent cfg C pt ret ev st) = st
    rw [processEvent_skip cfg C pt ret ev st (h ev (List.mem_cons_self ev rest))]
    exact ih st (fun e he => h e (List.mem_cons_of_mem ev he))

theorem processEvent_exec_allocCalls (cfg : Config) (C : Collaborators)
    (pt ret : PriceTable) (ev : REvent) (st : EngineState)
    (h : eventAvailable cfg ret ev ≠ 0) :
    (processEvent cfg C pt ret ev st).allocCalls =
      st.allocCalls ++ [(ev.rebalanceDate, st.balance)] := by
  unfold processEvent
  rw [if_neg h]

theorem processEvent_exec_positions (cfg : Config) (C : Collaborators)
    (pt ret : PriceTable) (ev : REvent) (st : EngineState)
    (h : eventAvailable cfg ret ev ≠ 0) :
    (processEvent cfg C pt ret ev st).positions =
      (eventAlloc cfg C ret ev st.balance st.positions).1 := by
  unfold processEvent
  rw [if_neg h]

theorem processEvent_exec_balance (cfg : Config) (C : Collaborators)
    (pt ret : PriceTable) (ev : REvent) (st : EngineState)
    (h : eventAvailable cfg ret ev ≠ 0) :
    (processEvent cfg C pt ret ev st).balance =
      ((periodDays pt ev).map (fun d =>
        (valueDay pt d (decide (d = ev.startDate))
          (eventAlloc cfg C ret ev st.balance st.positions).1).1)).getLastD st.balance := by
  unfold processEvent
  rw [if_neg h]
  exact mtmDays_fst pt ev.startDate _ (periodDays pt ev) st.balance st.portfolioValues st.dailyData

theorem processEvent_exec_pv (cfg : Config) (C : Collaborators)
    (pt ret : PriceTable) (ev : REvent) (st : EngineState)
    (h : eventAvailable cfg ret ev ≠ 0) :
    (processEvent cfg C pt ret ev st).portfolioValues =
      st.portfolioValues ++ (periodDays pt ev).map (fun d =>
        (d, (valueDay pt d (decide (d = ev.startDate))
          (eventAlloc cfg C ret ev st.balance st.positions).1).1)) := by
  unfold processEvent
  rw [if_neg h]
  exact mtmDays_pv pt ev.startDate _ (periodDays pt ev) st.balance st.portfolioValues st.dailyData

theorem valueDay_go (pt : PriceTable) (d : Int) (b : Bool) :
    ∀ (ps : List (String × Position)) (t0 : ℚ) (rs0 : List DailyRecord),
    (ps.foldl (valueStep pt d b) (t0, rs0)).1 = t0 + (pricedContribs pt d ps).sum ∧
    ((ps.foldl (valueStep pt d b) (t0, rs0)).2).map DailyRecord.totalPortfolioValue =
      rs0.map DailyRecord.totalPortfolioValue ++ prefixSumsAux t0 (pricedContribs pt d ps) := by
  intro ps
  induction ps with
  | nil => intro t0 rs0; simp [pricedContribs, prefixSumsAux]
  | cons tp rest ih =>
    intro t0 rs0
    cases hpe : priceAt pt d tp.1 with
    | none =>
      have hstep : valueStep pt d b (t0, rs0) tp = (t0, rs0) := by
        unfold valueStep; rw [hpe]
      have hc : pricedContribs pt d (tp :: rest) = pricedContribs pt d rest := by
        simp [pricedContribs, hpe]
      rw [List.foldl_cons, hstep, hc]
      exact ih t0 rs0
    | some p =>
      have hstep : valueStep pt d b (t0, rs0) tp =
          (t0 + tp.2.shares * p,
            rs0 ++ [({ date := d, ticker := tp.1, closePrice := p,
                       shares := tp.2.shares, allocatedAmount := tp.2.shares * p,
                       allocatedPct := tp.2.weight * 100,
                       totalPortfolioValue := t0 + tp.2.shares * p,
                       isRebalanceDay := b,
                       tradingCosts := if b then tp.2.tradingCosts else 0 } : DailyRecord)]) := by
        unfold valueStep; rw [hpe]
      have hc : pricedContribs pt d (tp :: rest) =
          tp.2.shares * p :: pricedContribs pt d rest := by
        simp [pricedContribs, hpe]
      rw [List.foldl_cons, hstep, hc]
      obtain ⟨ih1, ih2⟩ := ih (t0 + tp.2.shares * p) (rs0 ++ [_])
      constructor
      · rw [ih1, List.sum_cons]; ring
      · rw [ih2]
        simp [prefixSumsAux]

theorem valueDay_fst (pt : PriceTable) (d : Int) (b : Bool)
    (ps : List (String × Position)) :
    (valueDay pt d b ps).1 = (pricedContribs pt d ps).sum := by
  have h := (valueDay_go pt d b ps 0 []).1
  rw [zero_add] at h
  exact h

theorem valueDay_totals (pt : PriceTable) (d : Int) (b : Bool)
    (ps : List (String × Position)) :
    ((valueDay pt d b ps).2).map DailyRecord.totalPortfolioValue =
      prefixSums (pricedContribs pt d ps) := by
  have h := (valueDay_go pt d b ps 0 []).2
  simpa [prefixSums] using h

theorem valueDay_all_missing (pt : PriceTable) (d : Int) (b : Bool)
    (ps : List (String × Position))
    (h : ∀ tp ∈ ps, priceAt pt d tp.1 = none) :
    valueDay pt d b ps = (0, []) := by
  unfold valueDay
  have : ∀ (acc : ℚ × List DailyRecord) (l : List (String × Position)),
      (∀ tp ∈ l, priceAt pt d tp.1 = none) →
      l.foldl (valueStep pt d b) acc = acc := by
    intro acc l
    induction l generalizing acc with
    | nil => intro _; rfl
    | cons tp rest ih =>
      intro hl
      rw [List.foldl_cons]
      have hstep : valueStep pt d b acc tp = acc := by
        unfold valueStep; rw [hl tp (List.mem_cons_self tp rest)]
      rw [hstep]
      exact ih acc (fun e he => hl e (List.mem_cons_of_mem tp he))
  exact this (0, []) ps h

theorem prefixSumsAux_ne_nil (acc : ℚ) (l : List ℚ) (h : l ≠ []) :
    prefixSumsAux acc l ≠ [] := by
  cases l with
  | nil => exact absurd rfl h
  | cons x r => simp [prefixSumsAux]

theorem prefixSumsAux_dropLast_lt (l : List ℚ) (hpos : ∀ c ∈ l, 0 < c) :
    ∀ acc : ℚ, ∀ x ∈ (prefixSumsAux acc l).dropLast, x < acc + l.sum := by
  induction l with
  | nil => intro acc x hx; simp [prefixSumsAux] at hx
  | cons v r ih =>
    intro acc x hx
    cases hr : r with
    | nil =>
      subst hr
      simp [prefixSumsAux] at hx
    | cons w r2 =>
      have hrne : r ≠ [] := by rw [hr]; exact List.cons_ne_nil w r2
      have hne : prefixSumsAux (acc + v) r ≠ [] := prefixSumsAux_ne_nil _ r hrne
      rw [← hr] at *
      have hdl : (prefixSumsAux acc (v :: r)).dropLast =
          (acc + v) :: (prefixSumsAux (acc + v) r).dropLast := by
        show ((acc + v) :: prefixSumsAux (acc + v) r).dropLast = _
        cases hq : prefixSumsAux (acc + v) r with
        | nil => exact absurd hq hne
        | cons y ys => simp [List.dropLast]
      rw [hdl] at hx
      have hposr : ∀ c ∈ r, 0 < c := fun c hc => hpos c (List.mem_cons_of_mem v hc)
      rcases List.mem_cons.mp hx with hx1 | hx2
      · subst hx1
        have hrsum : 0 < r.sum := List.sum_pos r hposr hrne
        rw [List.sum_cons]
        linarith
      · have := ih hposr (acc + v) x hx2
        rw [List.sum_cons]
        linarith

theorem selectAndWeight_mode (mode : String) (hm : mode ≠ "select-then-optimize") :
    ∀ (f : List String → List (String × ℚ)) (u : List String) (n : Nat),
    selectAndWeight mode f u n = selectAndWeight "optimize-subset" f u n := by
  intro f u n
  unfold selectAndWeight
  rw [if_neg hm, if_neg (by decide)]

theorem processEvent_mode (cfg : Config) (C : Collaborators) (pt ret : PriceTable)
    (ev : REvent) (st : EngineState)
    (hm : cfg.optimizationMode ≠ "select-then-optimize") :
    processEvent cfg C pt ret ev st =
      processEvent { cfg with optimizationMode := "optimize-subset" } C pt ret ev st := by
  simp only [processEvent, eventAlloc, eventTickersWeights, eventN, eventAvailable,
    eventWindowStart, selectAndWeight_mode cfg.optimizationMode hm,
    selectAndWeight_mode "optimize-subset" (by decide)]

theorem runEvents_mode (cfg : Config) (C : Collaborators) (pt ret : PriceTable)
    (hm : cfg.optimizationMode ≠ "select-then-optimize") :
    ∀ (schedule : List REvent) (st : EngineState),
    runEvents cfg C pt ret schedule st =
      runEvents { cfg with optimizationMode := "optimize-subset" } C pt ret schedule st := by
  intro schedule
  induction schedule with
  | nil => intro st; rfl
  | cons ev rest ih =>
    intro st
    show runEvents cfg C pt ret rest (processEvent cfg C pt ret ev st) = _
    rw [processEvent_mode cfg C pt ret ev st hm, ih]
    rfl

theorem nextMonthPreview_mode (cfg : Config) (C : Collaborators) (pt ret : PriceTable)
    (hm : cfg.optimizationMode ≠ "select-then-optimize") :
    nextMonthPreview cfg C pt ret =
      nextMonthPreview { cfg with optimizationMode := "optimize-subset" } C pt ret := by
  simp only [nextMonthPreview, nextMonthCandidate, if_neg hm, if_neg (by
    decide : ¬ ("optimize-subset" = "select-then-optimize"))]

theorem returnsTable_colNames (pt : PriceTable) :
    (returnsTable pt).cols.map Prod.fst = pt.cols.map Prod.fst := by
  simp [returnsTable, List.map_map, Function.comp]

theorem reindexSelf :
    ∀ ws : List (String × ℚ), (ws.map Prod.fst).Nodup →
    (ws.map Prod.fst).map (fun t =>
      (t, ((ws.filter (fun p => decide (p.1 = t))).map Prod.snd).headD 0)) = ws := by
  intro ws
  induction ws with
  | nil => intro _; rfl
  | cons a rest ih =>
    intro hnd
    have hnd2 : (rest.map Prod.fst).Nodup := (List.nodup_cons.mp hnd).2
    have hna : a.1 ∉ rest.map Prod.fst := (List.nodup_cons.mp hnd).1
    rw [List.map_cons, List.map_cons]
    congr 1
    · have : (a :: rest).filter (fun p => decide (p.1 = a.1)) =
          a :: rest.filter (fun p => decide (p.1 = a.1)) := by
        rw [List.filter_cons_of_pos]
        simp
      rw [this]
      simp
    · have hcong : ∀ t ∈ rest.map Prod.fst,
          (t, (((a :: rest).filter (fun p => decide (p.1 = t))).map Prod.snd).headD 0) =
          (t, ((rest.filter (fun p => decide (p.1 = t))).map Prod.snd).headD 0) := by
        intro t ht
        have hne : ¬ (a.1 = t) := fun he => hna (he ▸ ht)
        rw [List.filter_cons_of_neg]
        simpa using hne
      rw [List.map_congr_left hcong]
      exact ih hnd2

theorem filter_mem_self {ts : List String} {cols : List String}
    (h : ∀ t ∈ ts, t ∈ cols) :
    ts.filter (fun t => decide (t ∈ cols)) = ts := by
  rw [List.filter_eq_self]
  intro a ha
  exact decide_eq_true (h a ha)

theorem staticRestrict_id (pt : PriceTable) (ts : List String)
    (ws : List (String × ℚ)) (hkeys : ws.map Prod.fst = ts)
    (hnd : ts.Nodup) (hsub : ∀ t ∈ ts, t ∈ pt.cols.map Prod.fst) :
    staticRestrict pt ts ws = (ts, ws) := by
  unfold staticRestrict
  rw [filter_mem_self hsub]
  subst hkeys
  show (ws.map Prod.fst,
    (ws.map Prod.fst).map (fun t =>
      (t, ((ws.filter (fun p => decide (p.1 = t))).map Prod.snd).headD 0))) = _
  rw [reindexSelf ws hnd]

/-- C1, amended: the engine's optimization-mode dispatch is a plain
if/else, so for every mode value other than "select-then-optimize" —
including arbitrary unknown strings — the whole run (rebalance loop and
next-month preview) behaves exactly as under "optimize-subset"; no fatal
configuration error is raised. -/
theorem c1_unknown_mode_runs_subset_branch (cfg : Config) (C : Collaborators)
    (pt : PriceTable) (schedule : List REvent)
    (hm : cfg.optimizationMode ≠ "select-then-optimize") :
    runBacktest cfg C pt schedule =
      runBacktest { cfg with optimizationMode := "optimize-subset" } C pt schedule := by
  have h1 := runEvents_mode cfg C (initPriceTable cfg.universeMode pt)
    (returnsTable (initPriceTable cfg.universeMode pt)) hm schedule (initialState cfg)
  have h2 := nextMonthPreview_mode cfg C (initPriceTable cfg.universeMode pt)
    (returnsTable (initPriceTable cfg.universeMode pt)) hm
  simp only [runBacktest]
  rw [h1, h2]
  rfl

/-- C1 witness: the general theorem instantiated at the concrete run
with the unrecognized mode "no-such-mode". -/
theorem c1_witness :
    runBacktest cfgBadW collabW ptW [ev1W] =
      runBacktest { cfgBadW with optimizationMode := "optimize-subset" } collabW ptW [ev1W] :=
  c1_unknown_mode_runs_subset_branch cfgBadW collabW ptW [ev1W] (by decide)

/-- C1 counterexample to the claim as stated: a run configured with the
unknown optimization mode "no-such-mode" does not abort — it executes
its rebalance event (the allocator is invoked once) and produces exactly
the optimize-subset run's result. -/
theorem c1_counterexample :
    runBacktest cfgBadW collabW ptW [ev1W] = runBacktest cfgSubW collabW ptW [ev1W] ∧
    (runBacktest cfgBadW collabW ptW [ev1W]).finalState.allocCalls = [(1, 100)] ∧
    cfgBadW.optimizationMode = "no-such-mode" := by
  refine ⟨?_, ?_, by decide⟩
  · have h1 := runEvents_mode cfgBadW collabW (initPriceTable cfgBadW.universeMode ptW)
      (returnsTable (initPriceTable cfgBadW.universeMode ptW)) (by decide) [ev1W]
      (initialState cfgBadW)
    have h2 := nextMonthPreview_mode cfgBadW collabW (initPriceTable cfgBadW.universeMode ptW)
      (returnsTable (initPriceTable cfgBadW.universeMode ptW)) (by decide)
    simp only [runBacktest]
    rw [h1, h2]
    rfl
  · have hinit : initPriceTable cfgBadW.universeMode ptW = ptW := by
      unfold initPriceTable
      rw [if_neg (by decide)]
    have hav : eventAvailable cfgBadW (returnsTable ptW) ev1W ≠ 0 := by decide
    show (runEvents cfgBadW collabW (initPriceTable cfgBadW.universeMode ptW)
      (returnsTable (initPriceTable cfgBadW.universeMode ptW)) [ev1W]
      (initialState cfgBadW)).allocCalls = [(1, 100)]
    rw [hinit]
    show (processEvent cfgBadW collabW ptW (returnsTable ptW) ev1W
      (initialState cfgBadW)).allocCalls = [(1, 100)]
    rw [processEvent_exec_allocCalls cfgBadW collabW ptW (returnsTable ptW) ev1W
      (initialState cfgBadW) hav]
    rfl

/-- C3, amended: in optimize-subset mode the engine optimizes the whole
pre-selected universe and keeps the first n pairs of the
descending-by-weight sort as the final allocation: every selected pair
is an unchanged pair of the full optimizer output, the selected weights
dominate all discarded weights, and no re-normalization is applied (the
final weights are exactly the sorted prefix, so their sum is the
subset's own mass). -/
theorem c3_subset_selection_behavior (optimizeFn : List String → List (String × ℚ))
    (univ : List String) (n : Nat) :
    ((selectAndWeight "optimize-subset" optimizeFn univ n).1 =
      (selectAndWeight "optimize-subset" optimizeFn univ n).2.map Prod.fst) ∧
    (∀ p ∈ (selectAndWeight "optimize-subset" optimizeFn univ n).2, p ∈ optimizeFn univ) ∧
    (∃ rest, (optimizeFn univ).Perm
        ((selectAndWeight "optimize-subset" optimizeFn univ n).2 ++ rest) ∧
      ∀ p ∈ (selectAndWeight "optimize-subset" optimizeFn univ n).2,
        ∀ q ∈ rest, q.2 ≤ p.2) ∧
    ((selectAndWeight "optimize-subset" optimizeFn univ n).2 =
      (sortByWeightDesc (optimizeFn univ)).take n) := by
  have hne : ¬ (("optimize-subset" : String) = "select-then-optimize") := by decide
  have hw : selectAndWeight "optimize-subset" optimizeFn univ n =
      (((sortByWeightDesc (optimizeFn univ)).take n).map Prod.fst,
        (sortByWeightDesc (optimizeFn univ)).take n) := by
    unfold selectAndWeight
    rw [if_neg hne]
  rw [hw]
  refine ⟨rfl, ?_, ?_, rfl⟩
  · intro p hp
    have hmem : p ∈ sortByWeightDesc (optimizeFn univ) := List.take_subset n _ hp
    exact (List.perm_insertionSort weightGE (optimizeFn univ)).mem_iff.mp hmem
  · refine ⟨(sortByWeightDesc (optimizeFn univ)).drop n, ?_, ?_⟩
    · show (optimizeFn univ).Perm
        ((sortByWeightDesc (optimizeFn univ)).take n ++
          (sortByWeightDesc (optimizeFn univ)).drop n)
      rw [List.take_append_drop]
      exact (List.perm_insertionSort weightGE (optimizeFn univ)).symm
    · have hs2 : List.Pairwise weightGE
          ((sortByWeightDesc (optimizeFn univ)).take n ++
            (sortByWeightDesc (optimizeFn univ)).drop n) := by
        rw [List.take_append_drop]
        exact List.sorted_insertionSort weightGE (optimizeFn univ)
      exact fun p hp q hq => (List.pairwise_append.mp hs2).2.2 p hp q hq

/-- C3 counterexample to the claim as stated: with full optimizer output
A at 3/5 and B at 2/5 and n = 1 the final allocation is exactly
the pair (A, 3/5): its weight sum 3/5 differs from the pre-truncation
total mass 1, so no re-normalization to the pre-truncation mass happens. -/
theorem c3_counterexample :
    (selectAndWeight "optimize-subset"
      (fun _ => [("A", 3 / 5), ("B", 2 / 5)]) ["A", "B"] 1).2 = [("A", 3 / 5)] ∧
    (([("A", (3 : ℚ) / 5), ("B", 2 / 5)].map Prod.snd).sum = 1) ∧
    (((selectAndWeight "optimize-subset"
      (fun _ => [("A", 3 / 5), ("B", 2 / 5)]) ["A", "B"] 1).2.map Prod.snd).sum ≠ 1) := by
  have hne : ¬ (("optimize-subset" : String) = "select-then-optimize") := by decide
  refine ⟨?_, by norm_num, ?_⟩
  · norm_num [selectAndWeight, sortByWeightDesc, List.insertionSort, List.orderedInsert,
      weightGE, hne]
  · norm_num [selectAndWeight, sortByWeightDesc, List.insertionSort, List.orderedInsert,
      weightGE, hne]

/-- C4, amended: the five explicitly guarded ratios (Ulcer Performance
Index, Sortino, Calmar, Omega, Pain) evaluate to the NaN sentinel
whenever the zero-denominator guard of the source fires, and no metric
computation can raise (the model is total); the Sharpe ratio, however,
carries no such guard: when the daily-return standard deviation is zero
and the mean daily return is positive it evaluates to positive infinity,
which is not the NaN sentinel. -/
theorem c4_zero_denominator_guards (sqrtQ : ℚ → ℚ) (powQ : ℚ → ℚ → ℚ)
    (sb tc : ℚ) (vals : List ℚ)
    (h0 : sqrtQ 0 = 0) (h252 : 0 < sqrtQ 252) :
    (maxDrawdownOf vals = 0 →
      (computeMetrics sqrtQ powQ sb tc vals).calmar = RFloat.nan) ∧
    (omegaNegOf vals = 0 →
      (computeMetrics sqrtQ powQ sb tc vals).omega = RFloat.nan) ∧
    (ulcerOf sqrtQ vals = RFloat.fin 0 →
      (computeMetrics sqrtQ powQ sb tc vals).upi = RFloat.nan) ∧
    (downVolOf sqrtQ vals = RFloat.fin 0 →
      (computeMetrics sqrtQ powQ sb tc vals).sortino = RFloat.nan) ∧
    (avgNegDrawdownOf vals = RFloat.fin 0 →
      (computeMetrics sqrtQ powQ sb tc vals).pain = RFloat.nan) ∧
    (varQ (dailyReturnsOf vals) = 0 → 2 ≤ (dailyReturnsOf vals).length →
      0 < meanQ (dailyReturnsOf vals) →
      (computeMetrics sqrtQ powQ sb tc vals).sharpe = RFloat.inf ∧
        RFloat.inf ≠ RFloat.nan) := by
  refine ⟨?_, ?_, ?_, ?_, ?_, ?_⟩
  · intro h; simp [computeMetrics, h]
  · intro h; simp [computeMetrics, h]
  · intro h; simp [computeMetrics, h]
  · intro h; simp [computeMetrics, h]
  · intro h; simp [computeMetrics, h]
  · intro hvar hlen hmean
    have hne : ¬ ((dailyReturnsOf vals).length ≤ 1) := by omega
    have hnil : dailyReturnsOf vals ≠ [] := by
      intro he
      rw [he] at hlen
      simp at hlen
    constructor
    · simp [computeMetrics, stdR, meanR, hne, hvar, h0, hmean, h252,
        RFloat.div, RFloat.mul, List.isEmpty_iff, hnil]
    · decide

/-- C4 witness: the guard theorem applied at the concrete stand-ins and
the concrete curve with two equal positive daily returns, discharging
each hypothesis by evaluation. -/
theorem c4_witness :
    (sqrtStub 0 = 0 ∧ 0 < sqrtStub 252 ∧ maxDrawdownOf curveFlatUp = 0 ∧
      varQ (dailyReturnsOf curveFlatUp) = 0 ∧
      2 ≤ (dailyReturnsOf curveFlatUp).length ∧
      0 < meanQ (dailyReturnsOf curveFlatUp)) ∧
    (computeMetrics sqrtStub powStub 100 0 curveFlatUp).calmar = RFloat.nan ∧
    (computeMetrics sqrtStub powStub 100 0 curveFlatUp).sharpe = RFloat.inf := by
  have h0 : sqrtStub 0 = 0 := by norm_num [sqrtStub]
  have h252 : 0 < sqrtStub 252 := by norm_num [sqrtStub]
  have hdd : maxDrawdownOf curveFlatUp = 0 := by
    norm_num [maxDrawdownOf, drawdownOf, runningMax, runningMaxAux, listMinD,
      curveFlatUp, max_def, min_def]
  have hvar : varQ (dailyReturnsOf curveFlatUp) = 0 := by
    norm_num [varQ, meanQ, dailyReturnsOf, pctChange, curveFlatUp]
  have hlen : 2 ≤ (dailyReturnsOf curveFlatUp).length := by
    norm_num [dailyReturnsOf, pctChange, curveFlatUp]
  have hmean : 0 < meanQ (dailyReturnsOf curveFlatUp) := by
    norm_num [meanQ, dailyReturnsOf, pctChange, curveFlatUp]
  exact ⟨⟨h0, h252, hdd, hvar, hlen, hmean⟩,
    (c4_zero_denominator_guards sqrtStub powStub 100 0 curveFlatUp h0 h252).1 hdd,
    ((c4_zero_denominator_guards sqrtStub powStub 100 0 curveFlatUp h0
      h252).2.2.2.2.2 hvar hlen hmean).1⟩

/-- C4 counterexample to the claim as stated: on the curve with two
equal positive daily returns the Sharpe denominator (the daily-return
standard deviation) is zero, yet the calculator reports positive
infinity, not the NaN sentinel used by every guarded ratio. -/
theorem c4_counterexample :
    (computeMetrics sqrtStub powStub 100 0 curveFlatUp).sharpe = RFloat.inf ∧
    RFloat.inf ≠ RFloat.nan := by
  refine ⟨?_, by decide⟩
  norm_num [computeMetrics, stdR, meanR, meanQ, varQ, dailyReturnsOf, pctChange,
    curveFlatUp, sqrtStub, RFloat.div, RFloat.mul]

/-- C5: on an empty finalized equity curve the performance-metrics
calculator returns empty PerformanceMetrics and empty
MonthlyPerformance (and, being a total function, cannot raise). -/
theorem c5_empty_curve_empty_metrics (sqrtQ : ℚ → ℚ) (powQ : ℚ → ℚ → ℚ)
    (monthOf : Int → Int) (sb tc : ℚ) :
    calculatePerformanceMetrics sqrtQ powQ monthOf sb tc [] =
      { performanceMetrics := [], monthlyPerformance := [] } := rfl

/-- C6: a rebalance event whose lookback window leaves zero available
columns is skipped with the whole engine state — in particular the
running balance and the positions map — exactly as it was, and the loop
resumes at the next scheduled event. -/
theorem c6_skip_event_preserves_state (cfg : Config) (C : Collaborators)
    (pt ret : PriceTable) (ev : REvent) (rest : List REvent) (st : EngineState)
    (h : eventAvailable cfg ret ev = 0) :
    processEvent cfg C pt ret ev st = st ∧
    runEvents cfg C pt ret (ev :: rest) st = runEvents cfg C pt ret rest st := by
  have h1 := processEvent_skip cfg C pt ret ev st h
  refine ⟨h1, ?_⟩
  show runEvents cfg C pt ret rest (processEvent cfg C pt ret ev st) = _
  rw [h1]

/-- C6 witness: the skip theorem instantiated at the concrete event
whose lookback window precedes all data. -/
theorem c6_witness :
    processEvent cfgW collabW ptW (returnsTable ptW) evSkipW (initialState cfgW) =
      initialState cfgW ∧
    runEvents cfgW collabW ptW (returnsTable ptW) [evSkipW, ev2W] (initialState cfgW) =
      runEvents cfgW collabW ptW (returnsTable ptW) [ev2W] (initialState cfgW) :=
  c6_skip_event_preserves_state cfgW collabW ptW (returnsTable ptW) evSkipW [ev2W]
    (initialState cfgW) (by decide)

/-- C7, amended: the coverage filter retains exactly the columns whose
count of non-missing observations reaches
`int(len(full_range) * threshold)` — the floor of threshold times the
business-day range length, not the exact ratio test.  In particular a
column is guaranteed to be retained under threshold at most 1 whenever
it is fully observed AND the table's date index itself covers the whole
business-day range; and the filter runs only in dynamic universe mode —
static mode leaves the columns untouched. -/
theorem c7_coverage_filter_floor_rule (pt : PriceTable) (threshold : ℚ)
    (c : String × List (Option ℚ))
    (hmem : c ∈ pt.cols)
    (hfull : c.2.all Option.isSome = true)
    (hlen : c.2.length = pt.dates.length)
    (hcomplete : pt.dates.length = fullRangeLen pt)
    (hthr : threshold ≤ 1) :
    c.1 ∈ validTickers pt threshold ∧
    initPriceTable "static" pt = pt ∧
    initPriceTable "Dynamic" pt = applyCoverageFilter pt (19 / 20) := by
  have hfilter : c.2.filter Option.isSome = c.2 :=
    List.filter_eq_self.mpr (List.all_eq_true.mp hfull)
  have hcov : colCoverage c.2 = fullRangeLen pt := by
    unfold colCoverage
    rw [hfilter, hlen, hcomplete]
  have hmin : minCoverageDays pt threshold ≤ colCoverage c.2 := by
    unfold minCoverageDays
    rw [hcov]
    have hL : (fullRangeLen pt : ℚ) * threshold ≤ ((fullRangeLen pt : ℚ)) :=
      mul_le_of_le_one_right (by positivity) hthr
    have hfl : Int.floor ((fullRangeLen pt : ℚ) * threshold) ≤ (fullRangeLen pt : Int) := by
      calc Int.floor ((fullRangeLen pt : ℚ) * threshold) ≤
          Int.floor ((fullRangeLen pt : ℚ)) := Int.floor_le_floor hL
        _ = (fullRangeLen pt : Int) := Int.floor_natCast _
    calc (Int.floor ((fullRangeLen pt : ℚ) * threshold)).toNat ≤
        ((fullRangeLen pt : Int)).toNat := Int.toNat_le_toNat hfl
      _ = fullRangeLen pt := Int.toNat_natCast _
  refine ⟨?_, ?_, ?_⟩
  · unfold validTickers
    exact List.mem_map_of_mem Prod.fst (List.mem_filter.mpr ⟨hmem, decide_eq_true hmin⟩)
  · unfold initPriceTable
    rw [if_neg (by decide)]
  · unfold initPriceTable
    rw [if_pos (by decide)]

/-- C7 witness: the floor-rule theorem instantiated at the fully
observed, gap-free three-day table. -/
theorem c7_witness :
    (("A", [some (1 : ℚ), some 2, some 3]) ∈ ptFull.cols ∧ (19 : ℚ) / 20 ≤ 1) ∧
    ("A" ∈ validTickers ptFull (19 / 20) ∧
      initPriceTable "static" ptFull = ptFull ∧
      initPriceTable "Dynamic" ptFull = applyCoverageFilter ptFull (19 / 20)) := by
  have hmem : ("A", [some (1 : ℚ), some 2, some 3]) ∈ ptFull.cols :=
    List.mem_singleton.mpr rfl
  have hthr : (19 : ℚ) / 20 ≤ 1 := by norm_num
  exact ⟨⟨hmem, hthr⟩,
    c7_coverage_filter_floor_rule ptFull (19 / 20) ("A", [some 1, some 2, some 3])
      hmem rfl rfl (by decide) hthr⟩

/-- C7 counterexample to the claim as stated, in two parts.  First, on
ten consecutive business days a column with nine observations has exact
ratio 9/10 — strictly below the 0.95 threshold — yet the filter retains
it, because int(10 x 0.95) truncates to 9.  Second, a column with
uniform full coverage whose index holds only two of the eleven
business days it spans is dropped even though the threshold is at most
1, contradicting the full-coverage retention sentence. -/
theorem c7_counterexample :
    validTickers ptTrunc (19 / 20) = ["A"] ∧
    ¬ retainedPerSpec ptTrunc (19 / 20)
      ("A", [some 1, some 1, some 1, some 1, some 1, some 1, some 1,
        some 1, some 1, none]) ∧
    validTickers ptSparse (19 / 20) = [] ∧
    ([some (1 : ℚ), some 2].all Option.isSome = true) ∧ (19 : ℚ) / 20 ≤ 1 := by
  have h10 : Int.toNat 10 = 10 := by simp
  have h11 : Int.toNat 11 = 11 := by simp
  refine ⟨?_, ?_, ?_, by decide, by norm_num⟩
  · norm_num [validTickers, minCoverageDays, fullRangeLen, colCoverage,
      ptTrunc, max_def, min_def, h10]
  · norm_num [retainedPerSpec, fullRangeLen, colCoverage, ptTrunc, max_def,
      min_def, h10]
  · norm_num [validTickers, minCoverageDays, fullRangeLen, colCoverage,
      ptSparse, max_def, min_def, h11]

/-- C2: capital continuity.  For an executed event E1 with a nonempty
holding period, followed (possibly after skipped events) by the next
executed event E2, the capital handed to E2's allocator call is exactly
the balance left by E1 — and that balance is precisely the stored daily
mark-to-market total of the last day of E1's holding period (the last
entry appended to the portfolio-value series), not a recomputed value. -/
theorem c2_capital_continuity (cfg : Config) (C : Collaborators) (pt ret : PriceTable)
    (E1 E2 : REvent) (mid : List REvent) (st : EngineState)
    (h1 : eventAvailable cfg ret E1 ≠ 0)
    (hd : periodDays pt E1 ≠ [])
    (hmid : ∀ ev ∈ mid, eventAvailable cfg ret ev = 0)
    (h2 : eventAvailable cfg ret E2 ≠ 0) :
    (processEvent cfg C pt ret E2
        (runEvents cfg C pt ret mid (processEvent cfg C pt ret E1 st))).allocCalls =
      (processEvent cfg C pt ret E1 st).allocCalls ++
        [(E2.rebalanceDate, (processEvent cfg C pt ret E1 st).balance)] ∧
    ∃ dLast, (periodDays pt E1).getLast? = some dLast ∧
      (processEvent cfg C pt ret E1 st).portfolioValues.getLast? =
        some (dLast, (processEvent cfg C pt ret E1 st).balance) := by
  have hskip : runEvents cfg C pt ret mid (processEvent cfg C pt ret E1 st) =
      processEvent cfg C pt ret E1 st :=
    runEvents_skip_all cfg C pt ret mid _ hmid
  constructor
  · rw [hskip, processEvent_exec_allocCalls cfg C pt ret E2 _ h2]
  · refine ⟨(periodDays pt E1).getLast hd, List.getLast?_eq_getLast _ hd, ?_⟩
    rw [processEvent_exec_pv cfg C pt ret E1 st h1,
      processEvent_exec_balance cfg C pt ret E1 st h1]
    have hmapne : (periodDays pt E1).map (fun d =>
        (d, (valueDay pt d (decide (d = E1.startDate))
          (eventAlloc cfg C ret E1 st.balance st.positions).1).1)) ≠ [] := by
      simpa using hd
    rw [List.getLast?_append_of_ne_nil _ hmapne]
    rw [getLast?_map_own _ (periodDays pt E1),
      List.getLast?_eq_getLast _ hd]
    rw [List.getLastD_eq_getLast?,
      getLast?_map_own (fun d =>
        (valueDay pt d (decide (d = E1.startDate))
          (eventAlloc cfg C ret E1 st.balance st.positions).1).1) (periodDays pt E1),
      List.getLast?_eq_getLast _ hd]
    rfl

/-- C2 witness: the capital-continuity theorem instantiated at the
concrete two-event world (no skipped events in between). -/
theorem c2_witness :
    (processEvent cfgW collabW ptW (returnsTable ptW) ev2W
        (runEvents cfgW collabW ptW (returnsTable ptW) []
          (processEvent cfgW collabW ptW (returnsTable ptW) ev1W (initialState cfgW)))).allocCalls =
      (processEvent cfgW collabW ptW (returnsTable ptW) ev1W (initialState cfgW)).allocCalls ++
        [(ev2W.rebalanceDate,
          (processEvent cfgW collabW ptW (returnsTable ptW) ev1W (initialState cfgW)).balance)] ∧
    ∃ dLast, (periodDays ptW ev1W).getLast? = some dLast ∧
      (processEvent cfgW collabW ptW (returnsTable ptW) ev1W
        (initialState cfgW)).portfolioValues.getLast? =
        some (dLast,
          (processEvent cfgW collabW ptW (returnsTable ptW) ev1W (initialState cfgW)).balance) :=
  c2_capital_continuity cfgW collabW ptW (returnsTable ptW) ev1W ev2W [] (initialState cfgW)
    (by decide) (by decide) (fun ev hev => absurd hev (List.not_mem_nil ev)) (by decide)

/-- C9, amended: each DailyValuationRecord appended on a given day
carries the running partial sum of shares times price over the priced
holdings processed so far, the last one equalling the day total; an
earlier record can also equal the day total when some later priced
contribution is zero, but when every priced contribution is strictly
positive, no record before the last equals the day total. -/
theorem c9_running_partial_sum (pt : PriceTable) (d : Int) (b : Bool)
    (ps : List (String × Position))
    (hpos : ∀ c ∈ pricedContribs pt d ps, 0 < c) :
    ((valueDay pt d b ps).2.map DailyRecord.totalPortfolioValue =
      prefixSums (pricedContribs pt d ps)) ∧
    ((valueDay pt d b ps).1 = (pricedContribs pt d ps).sum) ∧
    (∀ r ∈ (valueDay pt d b ps).2.dropLast,
      r.totalPortfolioValue ≠ (valueDay pt d b ps).1) := by
  refine ⟨valueDay_totals pt d b ps, valueDay_fst pt d b ps, ?_⟩
  intro r hr
  rw [valueDay_fst pt d b ps]
  intro he
  have h1 : r.totalPortfolioValue ∈
      ((valueDay pt d b ps).2.map DailyRecord.totalPortfolioValue).dropLast := by
    rw [← List.map_dropLast]
    exact List.mem_map_of_mem _ hr
  rw [valueDay_totals pt d b ps] at h1
  have h2 := prefixSumsAux_dropLast_lt (pricedContribs pt d ps) hpos 0
    r.totalPortfolioValue (by simpa [prefixSums] using h1)
  rw [he, zero_add] at h2
  exact lt_irrefl _ h2

/-- C9 witness: the partial-sum theorem instantiated at the two priced
positions with strictly positive contributions. -/
theorem c9_witness :
    ((valueDay ptP 0 true psPos).2.map DailyRecord.totalPortfolioValue =
      prefixSums (pricedContribs ptP 0 psPos)) ∧
    ((valueDay ptP 0 true psPos).1 = (pricedContribs ptP 0 psPos).sum) ∧
    (∀ r ∈ (valueDay ptP 0 true psPos).2.dropLast,
      r.totalPortfolioValue ≠ (valueDay ptP 0 true psPos).1) :=
  c9_running_partial_sum ptP 0 true psPos (by
    intro c hc
    have hcs : pricedContribs ptP 0 psPos = [1 * 1, 2 * 2] := rfl
    rw [hcs] at hc
    rcases List.mem_cons.mp hc with h | h
    · rw [h]; norm_num
    · rw [List.mem_singleton.mp h]; norm_num)

/-- C9 counterexample to the claim as stated: on a day with two priced
holdings, the second holding zero shares, both appended records carry
total 1 — the first record (which is not the last) already equals the
day's full portfolio total. -/
theorem c9_counterexample :
    ((valueDay ptP 0 true psP).2.map DailyRecord.totalPortfolioValue = [1, 1]) ∧
    ((valueDay ptP 0 true psP).1 = 1) ∧
    (valueDay ptP 0 true psP).2.length = 2 := by
  have hA : priceAt ptP 0 "A" = some 1 := rfl
  have hB : priceAt ptP 0 "B" = some 2 := rfl
  refine ⟨?_, ?_, ?_⟩ <;>
    norm_num [valueDay, valueStep, hA, hB, psP]

/-- C10, amended: a day on which every held instrument lacks a price
contributes a recorded total of exactly 0 with no floor (and appends no
valuation record); the running balance after that day is 0, so IF such a
day is the last valued day of the holding period, the next executed
event allocates from zero capital.  (When prices reappear later in the
period the balance is recomputed from the unchanged share counts and can
recover — see the counterexample — so the original "every subsequent
rebalance event allocates from zero capital" does not hold in general.) -/
theorem c10_all_missing_day_zero (cfg : Config) (C : Collaborators) (pt ret : PriceTable)
    (E1 E2 : REvent) (st : EngineState) (dL : Int)
    (h1 : eventAvailable cfg ret E1 ≠ 0)
    (hd : (periodDays pt E1).getLast? = some dL)
    (hmiss : ∀ tp ∈ (eventAlloc cfg C ret E1 st.balance st.positions).1,
      priceAt pt dL tp.1 = none)
    (h2 : eventAvailable cfg ret E2 ≠ 0) :
    valueDay pt dL (decide (dL = E1.startDate))
      (eventAlloc cfg C ret E1 st.balance st.positions).1 = (0, []) ∧
    (processEvent cfg C pt ret E1 st).balance = 0 ∧
    (processEvent cfg C pt ret E2 (processEvent cfg C pt ret E1 st)).allocCalls =
      (processEvent cfg C pt ret E1 st).allocCalls ++ [(E2.rebalanceDate, 0)] := by
  have hzero := valueDay_all_missing pt dL (decide (dL = E1.startDate))
    (eventAlloc cfg C ret E1 st.balance st.positions).1 hmiss
  have hbal : (processEvent cfg C pt ret E1 st).balance = 0 := by
    rw [processEvent_exec_balance cfg C pt ret E1 st h1]
    rw [List.getLastD_eq_getLast?,
      getLast?_map_own (fun d =>
        (valueDay pt d (decide (d = E1.startDate))
          (eventAlloc cfg C ret E1 st.balance st.positions).1).1) (periodDays pt E1),
      hd]
    show (valueDay pt dL (decide (dL = E1.startDate))
      (eventAlloc cfg C ret E1 st.balance st.positions).1).1 = 0
    rw [hzero]
  refine ⟨hzero, hbal, ?_⟩
  rw [processEvent_exec_allocCalls cfg C pt ret E2 _ h2, hbal]

/-- C10 witness: the all-missing-day theorem instantiated at the table
whose only instrument has no price on the last day (day 2) of the first
holding period. -/
theorem c10_witness :
    valueDay ptM 2 (decide ((2 : Int) = ev1W.startDate))
      (eventAlloc cfgW collabW (returnsTable ptM) ev1W
        (initialState cfgW).balance (initialState cfgW).positions).1 = (0, []) ∧
    (processEvent cfgW collabW ptM (returnsTable ptM) ev1W (initialState cfgW)).balance = 0 ∧
    (processEvent cfgW collabW ptM (returnsTable ptM) ev2W
        (processEvent cfgW collabW ptM (returnsTable ptM) ev1W (initialState cfgW))).allocCalls =
      (processEvent cfgW collabW ptM (returnsTable ptM) ev1W (initialState cfgW)).allocCalls ++
        [(ev2W.rebalanceDate, 0)] :=
  c10_all_missing_day_zero cfgW collabW ptM (returnsTable ptM) ev1W ev2W
    (initialState cfgW) 2 (by decide) (by decide) (by decide) (by decide)

/-- C10 counterexample to the claim as stated: on the table whose held
instrument has no price on day 1 but trades again at price 2 on days 2
and 3, the all-missing day records total 0 — yet the next rebalance
event is allocated capital 200 (the recovered balance of day 2), not
zero, refuting "every subsequent rebalance event allocates from zero
capital". -/
theorem c10_counterexample :
    priceAt ptR 1 "A" = none ∧
    (processEvent cfgW collabW ptR (returnsTable ptR) ev1W
      (initialState cfgW)).portfolioValues = [(1, 0), (2, 200)] ∧
    (processEvent cfgW collabW ptR (returnsTable ptR) ev2W
        (processEvent cfgW collabW ptR (returnsTable ptR) ev1W
          (initialState cfgW))).allocCalls = [(1, 100), (3, 200)] ∧
    (200 : ℚ) ≠ 0 := by
  have h1 : eventAvailable cfgW (returnsTable ptR) ev1W ≠ 0 := by decide
  have h2 : eventAvailable cfgW (returnsTable ptR) ev2W ≠ 0 := by decide
  have hpd : periodDays ptR ev1W = [1, 2] := by decide
  have halloc : (eventAlloc cfgW collabW (returnsTable ptR) ev1W
      (initialState cfgW).balance (initialState cfgW).positions).1 =
      [("A", { shares := 100, weight := 1, tradingCosts := 0 })] := rfl
  have hd1 : priceAt ptR 1 "A" = none := rfl
  have hd2 : priceAt ptR 2 "A" = some 2 := rfl
  have hv1 : (valueDay ptR 1 (decide ((1 : Int) = ev1W.startDate))
      [("A", { shares := 100, weight := 1, tradingCosts := 0 })]).1 = 0 := by
    norm_num [valueDay, valueStep, hd1]
  have hv2 : (valueDay ptR 2 (decide ((2 : Int) = ev1W.startDate))
      [("A", { shares := 100, weight := 1, tradingCosts := 0 })]).1 = 200 := by
    norm_num [valueDay, valueStep, hd2]
  have hbal : (processEvent cfgW collabW ptR (returnsTable ptR) ev1W
      (initialState cfgW)).balance = 200 := by
    rw [processEvent_exec_balance cfgW collabW ptR (returnsTable ptR) ev1W
      (initialState cfgW) h1]
    rw [hpd, halloc]
    simp only [List.map_cons, List.map_nil, List.getLastD_cons, List.getLastD_nil]
    exact hv2
  refine ⟨hd1, ?_, ?_, by norm_num⟩
  · rw [processEvent_exec_pv cfgW collabW ptR (returnsTable ptR) ev1W
      (initialState cfgW) h1]
    rw [hpd, halloc]
    simp only [List.map_cons, List.map_nil]
    rw [hv1, hv2]
    rfl
  · rw [processEvent_exec_allocCalls cfgW collabW ptR (returnsTable ptR) ev2W _ h2,
      processEvent_exec_allocCalls cfgW collabW ptR (returnsTable ptR) ev1W
        (initialState cfgW) h1, hbal]
    rfl

theorem nextMonthCandidate_props (cfg : Config) (C : Collaborators) (pt : PriceTable)
    (hpre : ∀ wS d k, (C.preselect wS d k) ⊆ pt.cols.map Prod.fst ∧
      (C.preselect wS d k).Nodup)
    (hopt : ∀ wS d cols n, (C.optimize wS d cols n).map Prod.fst = cols)
    (hcols : (pt.cols.map Prod.fst).Nodup) :
    (nextMonthCandidate cfg C pt (returnsTable pt)).2.map Prod.fst =
      (nextMonthCandidate cfg C pt (returnsTable pt)).1 ∧
    (∀ t ∈ (nextMonthCandidate cfg C pt (returnsTable pt)).1, t ∈ pt.cols.map Prod.fst) ∧
    (nextMonthCandidate cfg C pt (returnsTable pt)).1.Nodup := by
  unfold nextMonthCandidate
  simp only []
  by_cases hmode : cfg.optimizationMode = "select-then-optimize"
  · rw [if_pos hmode]
    refine ⟨hopt _ _ _ _, ?_, ?_⟩
    · intro t ht
      exact (hpre (listMaxInt pt.dates - cfg.windowDays) (listMaxInt pt.dates)
        cfg.topUniverseSize).1 (List.take_subset _ _ ht)
    · exact (List.take_sublist _ _).nodup
        (hpre (listMaxInt pt.dates - cfg.windowDays) (listMaxInt pt.dates)
          cfg.topUniverseSize).2
  · rw [if_neg hmode]
    have hwf : (C.optimize (listMaxInt pt.dates - cfg.windowDays) (listMaxInt pt.dates)
        ((returnsTable pt).cols.map Prod.fst)
        (min cfg.numStocks (availableCols (returnsTable pt)
          (listMaxInt pt.dates - cfg.windowDays) (listMaxInt pt.dates)))).map Prod.fst =
        pt.cols.map Prod.fst := by
      rw [hopt, returnsTable_colNames]
    refine ⟨rfl, ?_, ?_⟩
    · intro t ht
      obtain ⟨p, hp, hpt⟩ := List.mem_map.mp ht
      have hp3 : p ∈ C.optimize (listMaxInt pt.dates - cfg.windowDays) (listMaxInt pt.dates)
          ((returnsTable pt).cols.map Prod.fst)
          (min cfg.numStocks (availableCols (returnsTable pt)
            (listMaxInt pt.dates - cfg.windowDays) (listMaxInt pt.dates))) :=
        (List.perm_insertionSort weightGE _).mem_iff.mp (List.take_subset _ _ hp)
      rw [← hpt, ← hwf]
      exact List.mem_map_of_mem Prod.fst hp3
    · have h4 := (List.perm_insertionSort weightGE
        (C.optimize (listMaxInt pt.dates - cfg.windowDays) (listMaxInt pt.dates)
          ((returnsTable pt).cols.map Prod.fst)
          (min cfg.numStocks (availableCols (returnsTable pt)
            (listMaxInt pt.dates - cfg.windowDays) (listMaxInt pt.dates))))).map Prod.fst
      have h5 : ((sortByWeightDesc (C.optimize (listMaxInt pt.dates - cfg.windowDays)
          (listMaxInt pt.dates) ((returnsTable pt).cols.map Prod.fst)
          (min cfg.numStocks (availableCols (returnsTable pt)
            (listMaxInt pt.dates - cfg.windowDays) (listMaxInt pt.dates))))).map
          Prod.fst).Nodup :=
        h4.nodup_iff.mpr (hwf ▸ hcols)
      rw [List.map_take]
      exact (List.take_sublist _ _).nodup h5

/-- C8: in static-universe mode the next-month preview's ticker list is
restricted to the engine's (original) instrument columns, and because
every optimizer-produced ticker already lies among those columns the
restriction filters nothing: the surviving weights are exactly the
candidate weights, so their sum equals the pre-restriction sum; and a
final window with zero available columns yields the empty preview, not
an error.  The collaborator hypotheses are the spec's interface
contracts: the pre-selector returns (distinct) instruments of the price
table, the optimizer returns a weight vector indexed by its input
columns. -/
theorem c8_static_preview (cfg : Config) (C : Collaborators) (pt : PriceTable)
    (hstatic : cfg.universeMode = "static")
    (hpre : ∀ wS d k, (C.preselect wS d k) ⊆ pt.cols.map Prod.fst ∧
      (C.preselect wS d k).Nodup)
    (hopt : ∀ wS d cols n, (C.optimize wS d cols n).map Prod.fst = cols)
    (hcols : (pt.cols.map Prod.fst).Nodup) :
    (availableCols (returnsTable pt) (listMaxInt pt.dates - cfg.windowDays)
        (listMaxInt pt.dates) = 0 →
      nextMonthPreview cfg C pt (returnsTable pt) = ([], [])) ∧
    (∀ t ∈ (nextMonthPreview cfg C pt (returnsTable pt)).1, t ∈ pt.cols.map Prod.fst) ∧
    (availableCols (returnsTable pt) (listMaxInt pt.dates - cfg.windowDays)
        (listMaxInt pt.dates) ≠ 0 →
      ((nextMonthPreview cfg C pt (returnsTable pt)).2.map Prod.snd).sum =
        ((nextMonthCandidate cfg C pt (returnsTable pt)).2.map Prod.snd).sum) := by
  obtain ⟨hkeys, hsub, hnd⟩ := nextMonthCandidate_props cfg C pt hpre hopt hcols
  have hprevEq : nextMonthPreview cfg C pt (returnsTable pt) =
      if availableCols (returnsTable pt) (listMaxInt pt.dates - cfg.windowDays)
          (listMaxInt pt.dates) = 0 then ([], [])
      else staticRestrict pt (nextMonthCandidate cfg C pt (returnsTable pt)).1
        (nextMonthCandidate cfg C pt (returnsTable pt)).2 := by
    unfold nextMonthPreview
    simp only []
    by_cases hA : availableCols (returnsTable pt) (listMaxInt pt.dates - cfg.windowDays)
        (listMaxInt pt.dates) = 0
    · rw [if_pos hA, if_pos hA]
    · rw [if_neg hA, if_neg hA, hstatic, if_pos rfl]
  by_cases hA : availableCols (returnsTable pt) (listMaxInt pt.dates - cfg.windowDays)
      (listMaxInt pt.dates) = 0
  · rw [hprevEq, if_pos hA]
    exact ⟨fun _ => rfl, fun t ht => absurd ht (List.not_mem_nil t), fun h => absurd hA h⟩
  · rw [hprevEq, if_neg hA,
      staticRestrict_id pt (nextMonthCandidate cfg C pt (returnsTable pt)).1
        (nextMonthCandidate cfg C pt (returnsTable pt)).2 hkeys hnd hsub]
    exact ⟨fun h => absurd h hA, hsub, fun _ => rfl⟩

/-- C8 witness: the static-preview theorem instantiated at the concrete
static-mode world, with the collaborator contracts discharged for the
concrete collaborators. -/
theorem c8_witness :
    (availableCols (returnsTable ptW) (listMaxInt ptW.dates - cfgW.windowDays)
        (listMaxInt ptW.dates) = 0 →
      nextMonthPreview cfgW collabW ptW (returnsTable ptW) = ([], [])) ∧
    (∀ t ∈ (nextMonthPreview cfgW collabW ptW (returnsTable ptW)).1,
      t ∈ ptW.cols.map Prod.fst) ∧
    (availableCols (returnsTable ptW) (listMaxInt ptW.dates - cfgW.windowDays)
        (listMaxInt ptW.dates) ≠ 0 →
      ((nextMonthPreview cfgW collabW ptW (returnsTable ptW)).2.map Prod.snd).sum =
        ((nextMonthCandidate cfgW collabW ptW (returnsTable ptW)).2.map Prod.snd).sum) :=
  c8_static_preview cfgW collabW ptW rfl
    (fun wS d k => ⟨by intro a ha; simpa [ptW, collabW] using ha, by
      show (["A"] : List String).Nodup
      decide⟩)
    (fun _ _ cols _ => by simp [collabW, Function.comp_def])
    (by decide)

end AlphaMachine
